import Mathlib

set_option maxRecDepth 8000

/-!
Shallow embedding of the generation-orchestration core of the taco repository
(backend/services/image/image.go, backend/services/audio/audio.go, the shared
utility helpers and the progress tracker of the main package), together with
theorems settling the frozen claims about it.

Strings are modelled as lists of characters; Go string helpers are embedded as
executable functions on such lists (faithful on the ASCII range relevant to
the claims: Go performs full-Unicode lowering and space classification, the
claims only exercise ASCII letters and whitespace).  External I/O (HTTP calls,
file writes, os.Remove) is abstracted at the call boundary: a provider call
becomes a value describing its outcome, a file write becomes the list of bytes
that would be written.
-/

/-! ## String helpers (models of Go strings / unicode functions) -/

/-- Model of unicode.ToLower on the ASCII range (Go strings.ToLower). -/
def lowChar (c : Char) : Char :=
  if 65 ≤ c.toNat ∧ c.toNat ≤ 90 then Char.ofNat (c.toNat + 32) else c

/-- Model of Go strings.ToLower. -/
def lowerL (s : List Char) : List Char := s.map lowChar

/-- Model of unicode.IsSpace restricted to the ASCII whitespace characters
(space, tab, newline, vertical tab, form feed, carriage return). -/
def isSpaceGo (c : Char) : Bool :=
  c == ' ' || c == '\t' || c == '\n' || c == Char.ofNat 11 || c == Char.ofNat 12 || c == '\r'

/-- Trailing-whitespace trim, the right half of Go strings.TrimSpace. -/
def trimRightWs (s : List Char) : List Char := (s.reverse.dropWhile isSpaceGo).reverse

/-- Model of Go strings.TrimSpace. -/
def trimSpaceL (s : List Char) : List Char := trimRightWs (s.dropWhile isSpaceGo)

/-- Model of Go strings.Trim with a cutset. -/
def trimCutset (s cut : List Char) : List Char :=
  ((s.dropWhile (fun c => cut.contains c)).reverse.dropWhile (fun c => cut.contains c)).reverse

/-- Model of Go strings.TrimRight with a cutset. -/
def trimRightCut (s cut : List Char) : List Char :=
  (s.reverse.dropWhile (fun c => cut.contains c)).reverse

/-- Model of Go strings.TrimPrefix: drop the leading occurrence if present. -/
def trimPrefixL (s p : List Char) : List Char :=
  if p.isPrefixOf s then s.drop p.length else s

/-! ## Image URL extraction (image.go, extractImageURL) -/

def httpMark : List Char := "http://".data

def httpsMark : List Char := "https://".data

/-- Characters that terminate a URL match of the Go pattern: the regexp
whitespace class (tab, newline, form feed, carriage return, space) and a
closing parenthesis. -/
def urlStop (c : Char) : Bool :=
  c == ' ' || c == '\t' || c == '\n' || c == Char.ofNat 12 || c == '\r' || c == ')'

/-- Fuel-driven scan modelling regexp.FindAllString for the Go pattern
matching an http or https scheme followed by one or more characters that are
neither whitespace nor a closing parenthesis.  At each position the scanner
matches greedily and resumes after the match, exactly as the leftmost-first
semantics of the Go regexp engine behaves on this pattern. -/
def urlScan : Nat → List Char → List (List Char)
  | 0, _ => []
  | _, [] => []
  | fuel + 1, c :: rest =>
    let s := c :: rest
    if httpsMark.isPrefixOf s then
      let run := (s.drop 8).takeWhile (fun ch => !urlStop ch)
      if run = [] then urlScan fuel rest
      else (httpsMark ++ run) :: urlScan fuel (s.drop (8 + run.length))
    else if httpMark.isPrefixOf s then
      let run := (s.drop 7).takeWhile (fun ch => !urlStop ch)
      if run = [] then urlScan fuel rest
      else (httpMark ++ run) :: urlScan fuel (s.drop (7 + run.length))
    else urlScan fuel rest

/-- All URL-like matches of a text, in order of appearance. -/
def urlMatches (s : List Char) : List (List Char) := urlScan s.length s

/-- Cutset trimmed from each URL candidate (brackets, quotes, punctuation). -/
def imageCutset : List Char := "[]()<>\x22\x27\x60.,".data

/-- Model of Go strings.Contains: sub occurs contiguously inside s. -/
def containsSub : (s sub : List Char) → Bool
  | [], sub => sub.isEmpty
  | c :: t, sub => sub.isPrefixOf (c :: t) || containsSub t sub

/-- Whether a lower-cased candidate contains one of the known image suffixes. -/
def hasImageSuffix (low : List Char) : Bool :=
  containsSub low ".png".data || containsSub low ".jpg".data ||
    containsSub low ".jpeg".data || containsSub low ".webp".data

def noImageLinkErr : List Char := "未找到图片链接".data

/-- Model of extractImageURL (image.go): prefer the first URL-like match whose
trimmed, lower-cased form contains a known image suffix; otherwise fall back
to the trimmed last match; fail when there is no match at all. -/
def extractImageURL (content : List Char) : Except (List Char) (List Char) :=
  let ms := urlMatches content
  if ms = [] then .error noImageLinkErr
  else
    match ms.find? (fun cand => hasImageSuffix (lowerL (trimCutset cand imageCutset))) with
    | some cand => .ok (trimCutset cand imageCutset)
    | none => .ok (trimCutset (ms.getLastD []) imageCutset)

/-! ## Retry loop (image.go, requestCharacterImage / requestSceneImage /
requestSceneImageWithCharacters all contain the identical loop) -/

/-- Observable trace of one run of the retry loop: the final result, the
number of attempts performed, and the seconds slept before retries, in
order. -/
structure RetryTrace (A : Type) where
  result : Except (List Char) A
  attempts : Nat
  waits : List Nat
deriving Repr

def retryMax : Nat := 3

/-- Combined error produced after the final failed attempt: it names the
attempt count and wraps the last underlying error. -/
def combinedErr (lastErr : List Char) : List Char :=
  "重试 ".data ++ (Nat.repr retryMax).data ++ " 次后仍然失败: ".data ++ lastErr

/-- One pass of the retry loop: remaining attempts, current attempt number,
waits so far, last error so far. Before attempt k with k greater than 1 the
loop sleeps (k-1)*2 seconds; a successful attempt returns immediately. -/
def retryGo (f : Nat → Except (List Char) A) :
    Nat → Nat → List Nat → List Char → RetryTrace A
  | 0, k, waits, lastErr => ⟨.error (combinedErr lastErr), k - 1, waits⟩
  | r + 1, k, waits, _lastErr =>
    let waits2 := if 1 < k then waits ++ [(k - 1) * 2] else waits
    match f k with
    | .ok v => ⟨.ok v, k, waits2⟩
    | .error e => retryGo f r (k + 1) waits2 e

/-- Model of the three-attempt retry loop of image.go. -/
def retryRun (f : Nat → Except (List Char) A) : RetryTrace A :=
  retryGo f retryMax 1 [] []

/-! ## Provider call model (image.go, doImageRequest) -/

/-- Decoded shape of a 200 response body: either the JSON decoder fails, or
it yields the list of message contents of the choices array. -/
inductive CompletionBody where
  | malformed : CompletionBody
  | choices : List (List Char) → CompletionBody
deriving DecidableEq, Repr

/-- Outcome of one provider HTTP exchange as seen by doImageRequest: a
transport error from the HTTP client (network failure, cancelled context),
or a status code together with the raw error text and the decoded body. -/
inductive ProviderOutcome where
  | transport : List Char → ProviderOutcome
  | http : Nat → List Char → CompletionBody → ProviderOutcome
deriving DecidableEq, Repr

def parseRespErr : List Char := "解析响应失败".data

def noChoicesErr : List Char := "图像服务未返回内容".data

/-- Parse-failure wrapper of doImageRequest around extractImageURL errors. -/
def parseLinkErr (e : List Char) : List Char := "解析图片链接失败: ".data ++ e

/-- Status error of doImageRequest for a non-200 response. -/
def statusErr (status : Nat) (errText : List Char) : List Char :=
  "图像服务请求失败 (状态码 ".data ++ (Nat.repr status).data ++ "): ".data ++
    trimSpaceL errText

/-- Model of doImageRequest (image.go): transport errors and non-200 statuses
are provider errors; a 200 response is decoded, its first choice content is
trimmed and handed to extractImageURL, whose failure is wrapped as a parse
error. -/
def doImageRequestModel : ProviderOutcome → Except (List Char) (List Char)
  | .transport m => .error m
  | .http status errText body =>
    if status = 200 then
      match body with
      | .malformed => .error parseRespErr
      | .choices [] => .error noChoicesErr
      | .choices (c :: _) =>
        match extractImageURL (trimSpaceL c) with
        | .ok url => .ok url
        | .error e => .error (parseLinkErr e)
    else .error (statusErr status errText)

/-- The retry loop of requestCharacterImage / requestSceneImage driven by a
sequence of provider outcomes, one per attempt number. -/
def requestImageWithRetry (responses : Nat → ProviderOutcome) : RetryTrace (List Char) :=
  retryRun (fun k => doImageRequestModel (responses k))

def exIsOk : Except (List Char) (List Char) → Bool
  | .ok _ => true
  | .error _ => false

/-! ## Image configuration resolution (image.go, requestCharacterImage and
requestSceneImage share this prefix verbatim) -/

structure LLMConfig where
  model : List Char
  baseURL : List Char
  apiKey : List Char
deriving DecidableEq, Repr

structure ImageConfig where
  model : List Char
  baseURL : List Char
  apiKey : List Char
deriving DecidableEq, Repr

/-- The slice of models.Config read by the image request functions. -/
structure Config where
  llm : LLMConfig
  image : ImageConfig
deriving DecidableEq, Repr

def modelErr : List Char := "未配置图像模型".data

def baseURLErr : List Char := "未配置图像接口地址".data

def apiKeyErr : List Char := "未配置图像 API Key".data

def baseInvalidErr : List Char := "图像接口地址无效".data

/-- Defaulting step of requestCharacterImage / requestSceneImage: an empty or
whitespace model falls back to gpt-4o-image, base URL and API key fall back
to the LLM configuration. -/
def resolveImageCfg (cfg : Config) : ImageConfig :=
  { model := if trimSpaceL cfg.image.model = [] then "gpt-4o-image".data else cfg.image.model
    baseURL := if trimSpaceL cfg.image.baseURL = [] then cfg.llm.baseURL else cfg.image.baseURL
    apiKey := if trimSpaceL cfg.image.apiKey = [] then cfg.llm.apiKey else cfg.image.apiKey }

/-- Validation prefix of requestCharacterImage / requestSceneImage, up to and
including the trailing-slash trim of the base URL; returns the usable base. -/
def validateImageCfg (cfg : Config) : Except (List Char) (List Char) :=
  let ic := resolveImageCfg cfg
  if trimSpaceL ic.model = [] then .error modelErr
  else if trimSpaceL ic.baseURL = [] then .error baseURLErr
  else if trimSpaceL ic.apiKey = [] then .error apiKeyErr
  else
    let base := trimRightCut ic.baseURL ['/']
    if base = [] then .error baseInvalidErr else .ok base

/-! ## JSON model and audio response normalizer (audio.go) -/

/-- Decoded JSON values as produced by encoding/json into map[string]any:
objects are association lists with distinct keys. -/
inductive JVal where
  | jstr : List Char → JVal
  | jnum : Int → JVal
  | jbool : Bool → JVal
  | jnull : JVal
  | jarr : List JVal → JVal
  | jobj : List (List Char × JVal) → JVal

/-- Map lookup on a decoded JSON object. -/
def jget (fields : List (List Char × JVal)) (key : List Char) : Option JVal :=
  match fields.find? (fun kv => decide (kv.1 = key)) with
  | some kv => some kv.2
  | none => none

/-- Model of stringFromMap (audio.go): the first key, in the given order,
that is present with a string value wins; keys present with a value of any
other decoded type are skipped (no decoded JSON value implements
fmt.Stringer). -/
def stringFromMap (m : List (List Char × JVal)) : List (List Char) → Option (List Char)
  | [] => none
  | k :: ks =>
    match jget m k with
    | some (JVal.jstr s) => some s
    | _ => stringFromMap m ks

/-- Model of the audioResult struct (Source, IsURL, Extension). -/
structure AudioResult where
  source : List Char
  isURL : Bool
  extension : List Char
deriving DecidableEq, Repr

/-- Model of the anchored Go pattern that recognizes a data:audio/ payload
prefix and captures the mime name before the base64 marker. -/
def parseAudioDataURL (s : List Char) : Option (List Char) :=
  if "data:audio/".data.isPrefixOf s then
    let rest := s.drop 11
    let mime := rest.takeWhile (fun c => !(c == ';'))
    if mime ≠ [] ∧ ";base64,".data.isPrefixOf (rest.drop mime.length) then some mime
    else none
  else none

/-- Model of inferAudioExtensionFromData (audio.go). -/
def inferAudioExtensionFromData (data fallback : List Char) : List Char :=
  let fb := trimPrefixL fallback ['.']
  match parseAudioDataURL (lowerL (trimSpaceL data)) with
  | some mime => mime
  | none => if fb ≠ [] then fb else "mp3".data

def knownAudioSuffixes : List (List Char) :=
  [".mp3".data, ".wav".data, ".ogg".data, ".m4a".data, ".aac".data]

/-- Model of inferAudioExtensionFromURL (audio.go). -/
def inferAudioExtensionFromURL (url fallback : List Char) : List Char :=
  match knownAudioSuffixes.find? (fun ext => containsSub (lowerL url) ext) with
  | some ext => trimPrefixL ext ['.']
  | none => if fallback ≠ [] then trimPrefixL fallback ['.'] else "mp3".data

/-- Whether a candidate payload is classified as a remote URL: its lower-cased
form starts with the http or https scheme. -/
def startsHTTP (s : List Char) : Bool :=
  httpMark.isPrefixOf (lowerL s) || httpsMark.isPrefixOf (lowerL s)

/-- Extension taken from an explicit format / audio_format / audioExt field
of a candidate object, defaulting to mp3 (audio.go, extractAudioFromMap). -/
def audioExtField (m : List (List Char × JVal)) : List Char :=
  match stringFromMap m ["format".data, "audio_format".data, "audioExt".data] with
  | some e => if e ≠ [] then trimPrefixL e ['.'] else "mp3".data
  | none => "mp3".data

/-- URL branch of extractAudioFromMap: an audio_url or url key always yields
a remote URL reference. -/
def audioURLBranch (m : List (List Char × JVal)) (ext0 : List Char) : Option AudioResult :=
  match stringFromMap m ["audio_url".data, "url".data] with
  | some u =>
    if trimSpaceL u ≠ [] then
      some ⟨trimSpaceL u, true, inferAudioExtensionFromURL (trimSpaceL u) ext0⟩
    else none
  | none => none

/-- Model of extractAudioFromMap (audio.go): an inline payload under audio or
audio_data is preferred, classified as a remote URL exactly when it starts
with the http or https scheme; otherwise an audio_url or url key yields a
remote URL; otherwise the candidate yields nothing. -/
def extractAudioFromMap (m : List (List Char × JVal)) : Option AudioResult :=
  let ext0 := audioExtField m
  match stringFromMap m ["audio".data, "audio_data".data] with
  | some a =>
    if trimSpaceL a ≠ [] then
      if startsHTTP (trimSpaceL a) then
        some ⟨trimSpaceL a, true, inferAudioExtensionFromURL (trimSpaceL a) ext0⟩
      else
        some ⟨trimSpaceL a, false, inferAudioExtensionFromData (trimSpaceL a) ext0⟩
    else audioURLBranch m ext0
  | none => audioURLBranch m ext0

/-- First candidate object of a results array that yields a payload
(audio.go, the loops over output.results and results). -/
def firstObjExtract : List JVal → Option AudioResult
  | [] => none
  | JVal.jobj m :: rest =>
    match extractAudioFromMap m with
    | some r => some r
    | none => firstObjExtract rest
  | _ :: rest => firstObjExtract rest

def noAudioErr : List Char := "语音服务未返回音频数据".data

/-- Short-circuit composition of two probes: the Go early return after a
successful extractAudioFromMap call. -/
def orO (a b : Option α) : Option α :=
  match a with
  | some r => some r
  | none => b

/-- The output.audio sub-object probe of parseDashscopeAudio. -/
def outputAudioStep (o : List (List Char × JVal)) : Option AudioResult :=
  match jget o "audio".data with
  | some (JVal.jobj a) => extractAudioFromMap a
  | _ => none

/-- Probe of a decoded value expected to be an object (the data field and
the output field treated directly as a candidate). -/
def objStep (v : Option JVal) : Option AudioResult :=
  match v with
  | some (JVal.jobj d) => extractAudioFromMap d
  | _ => none

/-- Probe of a decoded value expected to be a results array: its first
object element that yields a payload wins. -/
def resultsStep (v : Option JVal) : Option AudioResult :=
  match v with
  | some (JVal.jarr items) => firstObjExtract items
  | _ => none

/-- The block of parseDashscopeAudio guarded by the output object: try
output.audio as a sub-object, then output itself, then output.results. -/
def outputStep (v : Option JVal) : Option AudioResult :=
  match v with
  | some (JVal.jobj o) =>
    orO (orO (outputAudioStep o) (extractAudioFromMap o))
      (resultsStep (jget o "results".data))
  | _ => none

/-- Model of parseDashscopeAudio (audio.go), its nested early returns written
as short-circuit composition of the probes above.  The payload is the decoded
top-level JSON object; a nil map decodes to none. -/
def parseDashscopeAudio (payload : Option (List (List Char × JVal))) :
    Except (List Char) AudioResult :=
  match payload with
  | none => .error noAudioErr
  | some p =>
    match
      orO (orO (outputStep (jget p "output".data)) (objStep (jget p "data".data)))
        (resultsStep (jget p "results".data)) with
    | some r => .ok r
    | none => .error noAudioErr

/-- The objects among a decoded JSON array, in order. -/
def objsOf : List JVal → List (List (List Char × JVal))
  | [] => []
  | JVal.jobj m :: rest => m :: objsOf rest
  | _ :: rest => objsOf rest

/-- Candidate list of a value expected to be an object. -/
def objCandidates (v : Option JVal) : List (List (List Char × JVal)) :=
  match v with
  | some (JVal.jobj d) => [d]
  | _ => []

/-- Candidate list of a value expected to be a results array. -/
def resultsCandidates (v : Option JVal) : List (List (List Char × JVal)) :=
  match v with
  | some (JVal.jarr items) => objsOf items
  | _ => []

/-- Candidate list contributed by the output object. -/
def outputCandidates (v : Option JVal) : List (List (List Char × JVal)) :=
  match v with
  | some (JVal.jobj o) =>
    (objCandidates (jget o "audio".data) ++ [o]) ++ resultsCandidates (jget o "results".data)
  | _ => []

/-- The ordered candidate list the specification describes: output.audio as a
sub-object, then output itself, then the objects of output.results, then
top-level data, then the objects of top-level results. -/
def audioCandidates (p : List (List Char × JVal)) : List (List (List Char × JVal)) :=
  (outputCandidates (jget p "output".data) ++ objCandidates (jget p "data".data)) ++
    resultsCandidates (jget p "results".data)

/-- First element of a list on which f succeeds, together with its value. -/
def firstSomeL (f : α → Option β) : List α → Option β
  | [] => none
  | x :: rest =>
    match f x with
    | some r => some r
    | none => firstSomeL f rest

/-! ## Base64 (encoding/base64 StdEncoding) and saveBase64ToFile -/

def b64Alphabet : List Char :=
  "ABCDEFGHIJKLMNOPQRSTUVWXYZabcdefghijklmnopqrstuvwxyz0123456789+/".data

def encChar (n : Nat) : Char := b64Alphabet.getD n 'A'

def decChar (c : Char) : Option Nat := b64Alphabet.findIdx? (fun a => a == c)

/-- Standard base64 encoding with padding of a byte sequence (each byte below
256).  This is the specification-side encoder used to state the round trip. -/
def b64encode : List Nat → List Char
  | [] => []
  | [a] => [encChar (a / 4), encChar (a % 4 * 16), '=', '=']
  | [a, b] => [encChar (a / 4), encChar (a % 4 * 16 + b / 16), encChar (b % 16 * 4), '=']
  | a :: b :: c :: rest =>
    encChar (a / 4) :: encChar (a % 4 * 16 + b / 16) ::
      encChar (b % 16 * 4 + c / 64) :: encChar (c % 64) :: b64encode rest

/-- Model of base64.StdEncoding.DecodeString: four-character quantums, padding
only at the end, any non-alphabet character rejected; like the Go decoder it
does not insist that unused trailing bits be zero. -/
def b64decode : List Char → Option (List Nat)
  | [] => some []
  | c1 :: c2 :: c3 :: c4 :: rest =>
    match decChar c1, decChar c2 with
    | some n1, some n2 =>
      if c3 == '=' then
        if c4 == '=' ∧ rest = [] then some [n1 * 4 + n2 / 16] else none
      else
        match decChar c3 with
        | some n3 =>
          if c4 == '=' then
            if rest = [] then some [n1 * 4 + n2 / 16, n2 % 16 * 16 + n3 / 4] else none
          else
            match decChar c4 with
            | some n4 =>
              match b64decode rest with
              | some bs =>
                some ((n1 * 4 + n2 / 16) :: (n2 % 16 * 16 + n3 / 4) :: (n3 % 4 * 64 + n4) :: bs)
              | none => none
            | none => none
        | none => none
    | _, _ => none
  | _ => none

def isCRLF (c : Char) : Bool := c == '\n' || c == '\r'

/-- Removal of every newline and carriage return, the strings.NewReplacer
step of saveBase64ToFile. -/
def removeCRLF (s : List Char) : List Char := s.filter (fun c => !isCRLF c)

/-- Cleanup pipeline of saveBase64ToFile before decoding: trim whitespace,
cut everything through the first comma when the payload carries a data:
prefix, then delete interior newlines. -/
def stripEncodedPayload (s : List Char) : List Char :=
  let t := trimSpaceL s
  let u :=
    if "data:".data.isPrefixOf t then
      if t.contains ',' then (t.dropWhile (fun c => !(c == ','))).drop 1 else t
    else t
  removeCRLF u

def decodeFailMsg : List Char := "解码 Base64 数据失败".data

/-- Model of saveBase64ToFile: the bytes that would be written to the target
file, or the decoding error.  The file write itself is outside the model. -/
def saveBase64ToFile (encoded : List Char) : Except (List Char) (List Nat) :=
  match b64decode (stripEncodedPayload encoded) with
  | some bs => .ok bs
  | none => .error decodeFailMsg

/-- The inline audio payload form of the round-trip claim. -/
def inlinePayload (m e : List Char) : List Char :=
  "data:audio/".data ++ m ++ ";base64,".data ++ e

/-! ## Progress tracker (main package, progressTracker) -/

/-- Model of the ProgressUpdate struct. -/
structure ProgressUpdate where
  taskId : List Char
  stage : List Char
  message : List Char
  progress : Int
  completed : Bool
  errorText : List Char
deriving DecidableEq, Repr

/-- Capacity of each subscriber channel. -/
def chanCap : Nat := 10

/-- Model of the progressTracker: for every task id, the buffers of the
channels currently registered under it, in registration order.  A channel is
modelled by its pending buffer, which is sound here because the claims
quantify over hub states between publisher steps. -/
structure progressTracker where
  channels : List Char → List (List ProgressUpdate)

/-- Model of progressTracker.subscribe: register a fresh empty channel of
capacity 10 under the task id. -/
def progressTracker.subscribe (pt : progressTracker) (taskID : List Char) : progressTracker :=
  ⟨fun t => if t = taskID then pt.channels t ++ [[]] else pt.channels t⟩

/-- A non-blocking channel send: enqueue when the buffer has room, otherwise
drop the event (the select with default of publish). -/
def sendNB (buf : List ProgressUpdate) (u : ProgressUpdate) : List ProgressUpdate :=
  if buf.length < chanCap then buf ++ [u] else buf

/-- Model of progressTracker.publish: best-effort delivery to every channel
registered under the task id of the event. -/
def progressTracker.publish (pt : progressTracker) (u : ProgressUpdate) : progressTracker :=
  ⟨fun t => if t = u.taskId then (pt.channels t).map (fun buf => sendNB buf u) else pt.channels t⟩

/-! ## Path cleaning and stale artifact removal (main package and
backend/utils: removeGeneratedFile, filepath.Join) -/

/-- Split on every slash, keeping empty segments (strings.Split). -/
def splitOnSlash : List Char → List (List Char)
  | [] => [[]]
  | c :: t =>
    if c = '/' then [] :: splitOnSlash t
    else
      match splitOnSlash t with
      | g :: gs => (c :: g) :: gs
      | [] => [[c]]

/-- Join segments with slashes. -/
def joinSlash : List (List Char) → List Char
  | [] => []
  | g :: gs =>
    match gs with
    | [] => g
    | _ :: _ => g ++ '/' :: joinSlash gs

/-- One element step of the lexical cleaning of path/filepath.Clean: empty
and dot elements vanish, a dot-dot element pops the stack or, on a rooted
path, vanishes at the root. -/
def cleanStep (rooted : Bool) (stack : List (List Char)) (e : List Char) : List (List Char) :=
  if e = [] ∨ e = ".".data then stack
  else if e = "..".data then
    match stack with
    | top :: rest => if top = "..".data then e :: stack else rest
    | [] => if rooted then [] else [e]
  else e :: stack

/-- Whether a path is rooted (starts with a slash). -/
def isRootedL (s : List Char) : Bool :=
  match s with
  | '/' :: _ => true
  | _ => false

/-- The cleaned element stack of a path, joined back with slashes. -/
def cleanBody (s : List Char) : List Char :=
  joinSlash (((splitOnSlash s).foldl (cleanStep (isRootedL s)) []).reverse)

/-- Model of path/filepath.Clean for slash-separated paths. -/
def cleanPathL (s : List Char) : List Char :=
  if isRootedL s then (if cleanBody s = [] then "/".data else '/' :: cleanBody s)
  else (if cleanBody s = [] then ".".data else cleanBody s)

/-- Model of filepath.Join for two elements: drop empty elements, join with a
slash, clean the result. -/
def joinPathL (a b : List Char) : List Char :=
  if a = [] ∧ b = [] then []
  else if a = [] then cleanPathL b
  else if b = [] then cleanPathL a
  else cleanPathL (a ++ '/' :: b)

def audioRoute : List Char := "/generated/audio/".data

def imagesRoute : List Char := "/generated/images/".data

/-- Model of removeGeneratedFile: the absolute path handed to os.Remove, or
none when the guards turn the call into a no-op.  The function itself
returns nothing in Go; deletion failures are only logged. -/
def removeGeneratedFile (relPath routePre dir : List Char) : Option (List Char) :=
  if routePre.isPrefixOf relPath then
    let filename := relPath.drop routePre.length
    if filename = [] then none else some (joinPathL dir filename)
  else none

/-- Outcome of the underlying os.Remove call, an oracle for the claims about
non-fatality. -/
inductive RemoveOutcome where
  | removed : RemoveOutcome
  | notExist : RemoveOutcome
  | failed : List Char → RemoveOutcome
deriving DecidableEq, Repr

/-- Two-digit zero padding of fmt.Sprintf with a %02d verb. -/
def pad2 (n : Nat) : List Char :=
  if n < 10 then '0' :: (Nat.repr n).data else (Nat.repr n).data

/-- Tail of GenerateSceneAudio after a successful provider request: choose
the extension, build the file name, retire the stale artifact (outcome
ignored), materialize the new artifact, return its relative URL.  The
download or base64 write is abstracted by the fetch outcome. -/
def generateSceneAudioTail (audioDir audioPath : List Char) (res : AudioResult)
    (idx ts : Nat) (osRemove : List Char → RemoveOutcome)
    (fetch : Except (List Char) Unit) : Except (List Char) (List Char) :=
  let ext := if res.extension ≠ [] then '.' :: trimPrefixL res.extension ['.'] else ".mp3".data
  let filename := "scene_".data ++ pad2 (idx + 1) ++ '_' :: (Nat.repr ts).data ++ ext
  let _ :=
    if audioPath ≠ [] then (removeGeneratedFile audioPath audioRoute audioDir).map osRemove
    else none
  match fetch with
  | .ok _ => .ok (audioRoute ++ filename)
  | .error e => .error e

/-! ## Concrete inputs used by witnesses and counterexamples -/

/-- Concrete response text used by the C1 witness. -/
def c1Text : List Char :=
  "见 http://example.com/page 与 https://cdn.example.com/pic.png 页面".data

def c3Attempt : Nat → Except (List Char) (List Char) :=
  fun k => if k ≤ 2 then .error "网络超时".data else .ok "http://example.com/ok.png".data

def c2Resp : ProviderOutcome := .http 200 [] (.choices ["抱歉，这里没有任何链接".data])

def ctxCanceledMsg : List Char := "context canceled".data

def c10Cfg : Config := ⟨⟨[], [], []⟩, ⟨[], [], []⟩⟩

def c7Event : ProgressUpdate :=
  ⟨"task-1".data, "generating_audio".data, "正在生成语音...".data, 30, false, []⟩

def c7Full : List ProgressUpdate := List.replicate 10 c7Event

def c7Hub : progressTracker :=
  ⟨fun t => if t = "task-1".data then [c7Full, []] else []⟩

def c5Obj : List (List Char × JVal) :=
  [("audio".data, JVal.jstr "http://example.com/voice.wav".data)]

def c9Payload : List (List Char × JVal) :=
  [("output".data,
    JVal.jobj [("audio".data, JVal.jstr "http://x/files/clip".data),
               ("format".data, JVal.jstr "MP3".data)])]

def c9GoodObj : List (List Char × JVal) :=
  [("audio_url".data, JVal.jstr "http://example.com/a".data), ("format".data, JVal.jstr "wav".data)]

def c8Rel : List Char := "/generated/audio/scene_01_99.mp3".data

def c8Dir : List Char := "/srv/taco/generated/audio".data


/-! ## Helper lemmas -/

theorem containsSub_nil_sub (ys : List Char) : containsSub ys [] = true := by
  cases ys <;> simp [containsSub, List.isPrefixOf]

theorem containsSub_append_left (xs ys sub : List Char) (h : containsSub xs sub = true) :
    containsSub (xs ++ ys) sub = true := by
  induction xs with
  | nil =>
    simp [containsSub] at h
    simp [h, containsSub_nil_sub]
  | cons x t ih =>
    simp only [containsSub, Bool.or_eq_true] at h
    rcases h with h | h
    · have hp : sub <+: (x :: t) := List.isPrefixOf_iff_prefix.mp h
      have hp2 : sub <+: (x :: t) ++ ys := hp.trans (List.prefix_append _ _)
      simp only [List.cons_append, containsSub, Bool.or_eq_true]
      exact Or.inl (List.isPrefixOf_iff_prefix.mpr (by simpa using hp2))
    · simp only [List.cons_append, containsSub, Bool.or_eq_true]
      exact Or.inr (ih h)

theorem retryRun_eq (f : Nat → Except (List Char) A) :
    retryRun f =
      match f 1 with
      | .ok v => ⟨.ok v, 1, []⟩
      | .error _ =>
        match f 2 with
        | .ok v => ⟨.ok v, 2, [2]⟩
        | .error _ =>
          match f 3 with
          | .ok v => ⟨.ok v, 3, [2, 4]⟩
          | .error e3 => ⟨.error (combinedErr e3), 3, [2, 4]⟩ := by
  rcases h1 : f 1 with e1 | v1 <;> rcases h2 : f 2 with e2 | v2 <;> rcases h3 : f 3 with e3 | v3 <;>
    simp [retryRun, retryMax, retryGo, h1, h2, h3]

theorem firstSomeL_append (f : α → Option β) (xs ys : List α) :
    firstSomeL f (xs ++ ys) = orO (firstSomeL f xs) (firstSomeL f ys) := by
  induction xs with
  | nil => simp [firstSomeL, orO]
  | cons x t ih =>
    cases hf : f x <;> simp [firstSomeL, hf, ih, orO]

theorem firstSomeL_single (f : α → Option β) (x : α) : firstSomeL f [x] = f x := by
  cases hf : f x <;> simp [firstSomeL, hf]

theorem firstObjExtract_eq (items : List JVal) :
    firstObjExtract items = firstSomeL extractAudioFromMap (objsOf items) := by
  induction items with
  | nil => rfl
  | cons x t ih =>
    cases x <;> simp [firstObjExtract, objsOf, ih]
    case jobj m =>
      cases hm : extractAudioFromMap m <;> simp [firstSomeL, hm, ih]

theorem objStep_eq (v : Option JVal) :
    objStep v = firstSomeL extractAudioFromMap (objCandidates v) := by
  cases v with
  | none => rfl
  | some x =>
    cases x <;> try rfl
    case jobj d => exact (firstSomeL_single _ _).symm

theorem resultsStep_eq (v : Option JVal) :
    resultsStep v = firstSomeL extractAudioFromMap (resultsCandidates v) := by
  cases v with
  | none => rfl
  | some x =>
    cases x <;> try rfl
    case jarr items => exact firstObjExtract_eq items

theorem outputAudioStep_eq (o : List (List Char × JVal)) :
    outputAudioStep o = firstSomeL extractAudioFromMap (objCandidates (jget o "audio".data)) := by
  unfold outputAudioStep
  cases hv : jget o "audio".data with
  | none => rfl
  | some x =>
    cases x <;> try rfl
    case jobj a => exact (firstSomeL_single _ _).symm

theorem outputStep_eq (v : Option JVal) :
    outputStep v = firstSomeL extractAudioFromMap (outputCandidates v) := by
  cases v with
  | none => rfl
  | some x =>
    cases x <;> try rfl
    case jobj o =>
      show orO (orO (outputAudioStep o) (extractAudioFromMap o))
          (resultsStep (jget o "results".data)) =
        firstSomeL extractAudioFromMap
          ((objCandidates (jget o "audio".data) ++ [o]) ++
            resultsCandidates (jget o "results".data))
      rw [firstSomeL_append, firstSomeL_append, firstSomeL_single, outputAudioStep_eq,
        resultsStep_eq]

theorem parse_eq_candidates (p : List (List Char × JVal)) :
    parseDashscopeAudio (some p) =
      match firstSomeL extractAudioFromMap (audioCandidates p) with
      | some r => Except.ok r
      | none => Except.error noAudioErr := by
  simp only [parseDashscopeAudio, audioCandidates]
  rw [firstSomeL_append, firstSomeL_append, outputStep_eq, objStep_eq, resultsStep_eq]

theorem trimPrefixDot_eq (s : List Char) (h : s.head? ≠ some '.') : trimPrefixL s ['.'] = s := by
  cases s with
  | nil => rfl
  | cons c t =>
    have hc : ('.' == c) = false := by
      simp only [List.head?] at h
      simp only [beq_eq_false_iff_ne, ne_eq]
      intro he
      exact h (by rw [he])
    simp [trimPrefixL, List.isPrefixOf, hc]

theorem inferURL_good (url f : List Char) (hf1 : lowerL f = f) (hf2 : f.head? ≠ some '.') :
    lowerL (inferAudioExtensionFromURL url f) = inferAudioExtensionFromURL url f ∧
      (inferAudioExtensionFromURL url f).head? ≠ some '.' := by
  cases hfind : knownAudioSuffixes.find? (fun ext => containsSub (lowerL url) ext) with
  | some ext =>
    have heq : inferAudioExtensionFromURL url f = trimPrefixL ext ['.'] := by
      simp [inferAudioExtensionFromURL, hfind]
    rw [heq]
    have hmem := List.mem_of_find?_eq_some hfind
    simp only [knownAudioSuffixes, List.mem_cons, List.not_mem_nil, or_false] at hmem
    rcases hmem with h | h | h | h | h <;> subst h <;> exact ⟨by decide, by decide⟩
  | none =>
    have heq : inferAudioExtensionFromURL url f =
        if f ≠ [] then trimPrefixL f ['.'] else "mp3".data := by
      simp [inferAudioExtensionFromURL, hfind]
    rw [heq]
    by_cases hfe : f = []
    · subst hfe
      simp only [ne_eq, not_true_eq_false, if_neg]
      exact ⟨by decide, by decide⟩
    · simp only [ne_eq, hfe, not_false_eq_true, if_pos, trimPrefixDot_eq f hf2]
      exact ⟨hf1, hf2⟩

theorem inferData_good (d f : List Char) (hf1 : lowerL f = f) (hf2 : f.head? ≠ some '.')
    (hm : ∀ mime, parseAudioDataURL (lowerL (trimSpaceL d)) = some mime →
      lowerL mime = mime ∧ mime.head? ≠ some '.') :
    lowerL (inferAudioExtensionFromData d f) = inferAudioExtensionFromData d f ∧
      (inferAudioExtensionFromData d f).head? ≠ some '.' := by
  unfold inferAudioExtensionFromData
  rw [trimPrefixDot_eq f hf2]
  cases hp : parseAudioDataURL (lowerL (trimSpaceL d)) with
  | some mime => exact hm mime hp
  | none =>
    by_cases hfe : f = []
    · subst hfe
      simp only [ne_eq, not_true_eq_false, if_neg]
      exact ⟨by decide, by decide⟩
    · simp only [ne_eq, hfe, not_false_eq_true, if_pos]
      exact ⟨hf1, hf2⟩

theorem urlBranch_good (m : List (List Char × JVal)) (r : AudioResult)
    (h : audioURLBranch m (audioExtField m) = some r)
    (hf1 : lowerL (audioExtField m) = audioExtField m)
    (hf2 : (audioExtField m).head? ≠ some '.') :
    lowerL r.extension = r.extension ∧ r.extension.head? ≠ some '.' := by
  unfold audioURLBranch at h
  cases hu : stringFromMap m ["audio_url".data, "url".data] with
  | some u =>
    rw [hu] at h
    by_cases hne : trimSpaceL u = []
    · simp [hne] at h
    · simp only [ne_eq, hne, not_false_eq_true, if_pos, Option.some.injEq] at h
      subst h
      exact inferURL_good _ _ hf1 hf2
  | none =>
    rw [hu] at h
    simp at h

theorem decChar_encChar : ∀ n : Nat, n < 64 → decChar (encChar n) = some n := by decide

theorem encChar_ne_pad : ∀ n : Nat, n < 64 → (encChar n == '=') = false := by decide

theorem b64_round_trip : ∀ (bs : List Nat), (∀ x ∈ bs, x < 256) →
    b64decode (b64encode bs) = some bs
  | [], _ => rfl
  | [a], h => by
    have ha : a < 256 := h a (by simp)
    have h1 : a / 4 < 64 := by omega
    have h2 : a % 4 * 16 < 64 := by omega
    simp only [b64encode, b64decode, decChar_encChar _ h1, decChar_encChar _ h2]
    norm_num
    omega
  | [a, b], h => by
    have ha : a < 256 := h a (by simp)
    have hb : b < 256 := h b (by simp)
    have h1 : a / 4 < 64 := by omega
    have h2 : a % 4 * 16 + b / 16 < 64 := by omega
    have h3 : b % 16 * 4 < 64 := by omega
    simp only [b64encode, b64decode, decChar_encChar _ h1, decChar_encChar _ h2,
      decChar_encChar _ h3, encChar_ne_pad _ h3]
    norm_num
    constructor <;> omega
  | a :: b :: c :: d :: rest, h => by
    have ha : a < 256 := h a (by simp)
    have hb : b < 256 := h b (by simp)
    have hc : c < 256 := h c (by simp)
    have h1 : a / 4 < 64 := by omega
    have h2 : a % 4 * 16 + b / 16 < 64 := by omega
    have h3 : b % 16 * 4 + c / 64 < 64 := by omega
    have h4 : c % 64 < 64 := by omega
    have ih := b64_round_trip (d :: rest) (fun x hx => h x (by simp at hx ⊢; tauto))
    simp only [b64encode, b64decode, decChar_encChar _ h1, decChar_encChar _ h2,
      decChar_encChar _ h3, decChar_encChar _ h4, encChar_ne_pad _ h3, encChar_ne_pad _ h4, ih]
    norm_num
    refine ⟨by omega, by omega, by omega⟩
  | [a, b, c], h => by
    have ha : a < 256 := h a (by simp)
    have hb : b < 256 := h b (by simp)
    have hc : c < 256 := h c (by simp)
    have h1 : a / 4 < 64 := by omega
    have h2 : a % 4 * 16 + b / 16 < 64 := by omega
    have h3 : b % 16 * 4 + c / 64 < 64 := by omega
    have h4 : c % 64 < 64 := by omega
    simp only [b64encode, b64decode, decChar_encChar _ h1, decChar_encChar _ h2,
      decChar_encChar _ h3, decChar_encChar _ h4, encChar_ne_pad _ h3, encChar_ne_pad _ h4]
    norm_num
    refine ⟨by omega, by omega, by omega⟩

theorem head?_dropWhile (p : Char → Bool) : ∀ (l : List Char) (c : Char),
    (l.dropWhile p).head? = some c → p c = false := by
  intro l
  induction l with
  | nil => intro c hc; simp [List.dropWhile] at hc
  | cons x t ih =>
    intro c hc
    by_cases hx : p x
    · rw [List.dropWhile_cons_of_pos hx] at hc
      exact ih c hc
    · rw [List.dropWhile_cons_of_neg hx] at hc
      simp at hc
      subst hc
      simpa using hx

theorem dropWhile_idem (p : Char → Bool) (l : List Char) :
    (l.dropWhile p).dropWhile p = l.dropWhile p := by
  cases hd : l.dropWhile p with
  | nil => rfl
  | cons c t =>
    have hc : p c = false := head?_dropWhile p l c (by rw [hd]; rfl)
    rw [List.dropWhile_cons_of_neg (by simp [hc])]

theorem trimRightWs_append_cons (xs ys : List Char) (c : Char) (hc : isSpaceGo c = false) :
    trimRightWs (xs ++ c :: ys) = xs ++ c :: trimRightWs ys := by
  unfold trimRightWs
  rw [List.reverse_append, List.reverse_cons, List.append_assoc, List.dropWhile_append]
  by_cases hy : (ys.reverse.dropWhile isSpaceGo).isEmpty
  · rw [if_pos hy]
    have hy2 : ys.reverse.dropWhile isSpaceGo = [] := by simpa [List.isEmpty_iff] using hy
    simp [hy2, List.dropWhile_cons, hc]
  · rw [if_neg hy]
    simp [List.reverse_append]

theorem trimRightWs_idem (l : List Char) : trimRightWs (trimRightWs l) = trimRightWs l := by
  unfold trimRightWs
  rw [List.reverse_reverse, dropWhile_idem]

theorem trimSpaceL_cons (c : Char) (t : List Char) (hc : isSpaceGo c = false) :
    trimSpaceL (c :: t) = trimRightWs (c :: t) := by
  unfold trimSpaceL
  rw [List.dropWhile_cons_of_neg (by simp [hc])]

theorem trimRightWs_head? (l : List Char) (c : Char) (hl : l.head? = some c) :
    (trimRightWs l).head? = some c ∨ trimRightWs l = [] := by
  cases hr : trimRightWs l with
  | nil => exact Or.inr rfl
  | cons y u =>
    left
    have hpre : trimRightWs l <+: l := by
      unfold trimRightWs
      have h1 : l.reverse.dropWhile isSpaceGo <:+ l.reverse :=
        ⟨l.reverse.takeWhile isSpaceGo, List.takeWhile_append_dropWhile _ _⟩
      have h2 := List.reverse_prefix.mpr h1
      simpa using h2
    rw [hr] at hpre
    obtain ⟨k, hk⟩ := hpre
    rw [← hk] at hl
    simp at hl
    simp [hl]

theorem trimSpaceL_idem (l : List Char) : trimSpaceL (trimSpaceL l) = trimSpaceL l := by
  unfold trimSpaceL
  cases hw : l.dropWhile isSpaceGo with
  | nil => simp [trimRightWs, List.dropWhile]
  | cons c t =>
    have hc : isSpaceGo c = false := head?_dropWhile _ l c (by rw [hw]; rfl)
    rcases trimRightWs_head? (c :: t) c rfl with hh | hnil
    · cases hu : trimRightWs (c :: t) with
      | nil => simp [hu, trimRightWs, List.dropWhile]
      | cons y v =>
        rw [hu] at hh
        simp at hh
        subst hh
        rw [List.dropWhile_cons_of_neg (by simp [hc])]
        have hidem := trimRightWs_idem (y :: t)
        rw [hu] at hidem
        exact hidem
    · rw [hnil]
      simp [trimRightWs, List.dropWhile]

theorem filter_dropWhile_of (p q : Char → Bool) (l : List Char)
    (h : ∀ c ∈ l, p c = true → q c = false) :
    (l.dropWhile p).filter q = l.filter q := by
  induction l with
  | nil => rfl
  | cons x t ih =>
    by_cases hx : p x
    · rw [List.dropWhile_cons_of_pos hx]
      have hq : q x = false := h x (by simp) hx
      rw [ih (fun c hc hp => h c (by simp [hc]) hp)]
      rw [List.filter_cons]
      simp [hq]
    · rw [List.dropWhile_cons_of_neg hx]

theorem removeCRLF_trimRightWs (e : List Char)
    (hw : ∀ c ∈ e, isSpaceGo c = true → isCRLF c = true) :
    removeCRLF (trimRightWs e) = removeCRLF e := by
  unfold removeCRLF trimRightWs
  rw [List.filter_reverse]
  rw [filter_dropWhile_of isSpaceGo _ e.reverse (by
    intro c hcm hsp
    have := hw c (by simpa using hcm) hsp
    simp [this])]
  rw [List.filter_reverse, List.reverse_reverse]

theorem takeWhile_append_all (p : Char → Bool) (xs l : List Char)
    (h : ∀ x ∈ xs, p x = true) :
    (xs ++ l).takeWhile p = xs ++ l.takeWhile p := by
  induction xs with
  | nil => simp
  | cons a t ih =>
    have ha : p a = true := h a (by simp)
    simp only [List.cons_append, List.takeWhile_cons, ha, if_true,
      ih (fun x hx => h x (by simp [hx]))]

theorem dropWhile_append_all (p : Char → Bool) (xs l : List Char)
    (h : ∀ x ∈ xs, p x = true) :
    (xs ++ l).dropWhile p = l.dropWhile p := by
  induction xs with
  | nil => simp
  | cons a t ih =>
    have ha : p a = true := h a (by simp)
    simp only [List.cons_append, List.dropWhile_cons, ha, if_true,
      ih (fun x hx => h x (by simp [hx]))]

theorem isPrefixOf_append_self (l t : List Char) : l.isPrefixOf (l ++ t) = true :=
  List.isPrefixOf_iff_prefix.mpr (List.prefix_append l t)

theorem lowerL_append (a b : List Char) : lowerL (a ++ b) = lowerL a ++ lowerL b :=
  List.map_append lowChar a b

theorem lowerL_cons (c : Char) (t : List Char) : lowerL (c :: t) = lowChar c :: lowerL t := rfl

theorem trimSpaceL_of_head (l : List Char) (c : Char) (hl : l.head? = some c)
    (hc : isSpaceGo c = false) : trimSpaceL l = trimRightWs l := by
  cases l with
  | nil => cases hl
  | cons x t =>
    simp at hl
    subst hl
    exact trimSpaceL_cons _ _ hc

theorem C6_trim (m e : List Char) :
    trimSpaceL (inlinePayload m e) =
      ("data:audio/".data ++ m ++ ";base64".data) ++ ',' :: trimRightWs e := by
  have hpre : inlinePayload m e =
      ("data:audio/".data ++ m ++ ";base64".data) ++ ',' :: e := by
    simp [inlinePayload, List.append_assoc]
  rw [hpre]
  rw [trimSpaceL_of_head (("data:audio/".data ++ m ++ ";base64".data) ++ ',' :: e) 'd' rfl
    (by decide)]
  rw [trimRightWs_append_cons _ _ ',' (by decide)]

theorem C6_lower (m e : List Char) (hm2 : lowerL m = m) :
    lowerL (trimSpaceL (inlinePayload m e)) =
      "data:audio/".data ++ (m ++ (";base64,".data ++ lowerL (trimRightWs e))) := by
  rw [C6_trim]
  rw [show (("data:audio/".data ++ m ++ ";base64".data) ++ ',' :: trimRightWs e)
      = "data:audio/".data ++ (m ++ (";base64".data ++ ',' :: trimRightWs e)) from by
    simp [List.append_assoc]]
  rw [lowerL_append, lowerL_append, lowerL_append]
  rw [hm2]
  rw [show lowerL "data:audio/".data = "data:audio/".data from by decide]
  rw [show lowerL ";base64".data = ";base64".data from by decide]
  rw [show lowerL (',' :: trimRightWs e) = ',' :: lowerL (trimRightWs e) from rfl]
  rfl

theorem C6_parse (m e : List Char) (hm1 : m ≠ []) (hm2 : lowerL m = m)
    (hm3 : ∀ c ∈ m, (c == ';') = false ∧ (c == ',') = false ∧ isSpaceGo c = false) :
    parseAudioDataURL (lowerL (trimSpaceL (trimSpaceL (inlinePayload m e)))) = some m := by
  rw [trimSpaceL_idem, C6_lower m e hm2]
  unfold parseAudioDataURL
  rw [if_pos (isPrefixOf_append_self _ _)]
  have hdrop : ("data:audio/".data ++
      (m ++ (";base64,".data ++ lowerL (trimRightWs e)))).drop 11 =
      m ++ (";base64,".data ++ lowerL (trimRightWs e)) := by
    have h0 := List.drop_left "data:audio/".data
      (m ++ (";base64,".data ++ lowerL (trimRightWs e)))
    exact h0
  have htake : (m ++ (";base64,".data ++ lowerL (trimRightWs e))).takeWhile
      (fun c => !(c == ';')) = m := by
    rw [takeWhile_append_all _ m _ (fun x hx => by simp [(hm3 x hx).1])]
    rw [show ((";base64,".data ++ lowerL (trimRightWs e)).takeWhile
      (fun c => !(c == ';'))) = [] from rfl]
    simp
  have hrest : (m ++ (";base64,".data ++ lowerL (trimRightWs e))).drop m.length =
      ";base64,".data ++ lowerL (trimRightWs e) := List.drop_left m _
  simp only [hdrop, htake, hrest]
  rw [if_pos ⟨hm1, isPrefixOf_append_self _ _⟩]

theorem C6_extract (m e : List Char) :
    extractAudioFromMap [("audio".data, JVal.jstr (inlinePayload m e))] =
      some ⟨trimSpaceL (inlinePayload m e), false,
        inferAudioExtensionFromData (trimSpaceL (inlinePayload m e)) "mp3".data⟩ := by
  have hne : trimSpaceL (inlinePayload m e) ≠ [] := by
    rw [C6_trim]
    simp
  have hsrcform : trimSpaceL (inlinePayload m e) =
      'd' :: ("ata:audio/".data ++ (m ++ (";base64".data ++ ',' :: trimRightWs e))) := by
    rw [C6_trim]
    simp [List.append_assoc]
  have hhttp : startsHTTP (trimSpaceL (inlinePayload m e)) = false := by
    rw [hsrcform]
    rfl
  unfold extractAudioFromMap
  simp only [show stringFromMap [("audio".data, JVal.jstr (inlinePayload m e))]
      ["audio".data, "audio_data".data] = some (inlinePayload m e) from rfl]
  rw [if_pos hne]
  rw [if_neg (by simp [hhttp])]
  rfl

theorem C6_strip (m e : List Char)
    (hm3 : ∀ c ∈ m, (c == ';') = false ∧ (c == ',') = false ∧ isSpaceGo c = false) :
    stripEncodedPayload (trimSpaceL (inlinePayload m e)) = removeCRLF (trimRightWs e) := by
  unfold stripEncodedPayload
  rw [trimSpaceL_idem]
  have hdp : "data:".data.isPrefixOf (trimSpaceL (inlinePayload m e)) = true := by
    rw [C6_trim]
    rw [show (("data:audio/".data ++ m ++ ";base64".data) ++ ',' :: trimRightWs e) =
        "data:".data ++ ("audio/".data ++ m ++ (";base64".data ++ ',' :: trimRightWs e)) from by
      simp [List.append_assoc]]
    exact isPrefixOf_append_self _ _
  have hcontains : (trimSpaceL (inlinePayload m e)).contains ',' = true := by
    rw [C6_trim]
    simp [List.contains, List.elem_iff]
  simp only [hdp, hcontains, if_true]
  have hallpre : ∀ x ∈ "data:audio/".data ++ m ++ ";base64".data, (!(x == ',')) = true := by
    intro x hx
    simp only [List.mem_append] at hx
    rcases hx with (hx | hx) | hx
    · revert x
      decide
    · simp [(hm3 x hx).2.1]
    · revert x
      decide
  have hdw : (trimSpaceL (inlinePayload m e)).dropWhile (fun c => !(c == ',')) =
      ',' :: trimRightWs e := by
    rw [C6_trim, dropWhile_append_all _ _ _ hallpre]
    rfl
  rw [hdw]
  rfl

theorem C6_infer (m e : List Char) (hm1 : m ≠ []) (hm2 : lowerL m = m)
    (hm3 : ∀ c ∈ m, (c == ';') = false ∧ (c == ',') = false ∧ isSpaceGo c = false) :
    inferAudioExtensionFromData (trimSpaceL (inlinePayload m e)) "mp3".data = m := by
  unfold inferAudioExtensionFromData
  rw [C6_parse m e hm1 hm2 hm3]

theorem splitOnSlash_ne_nil (s : List Char) : splitOnSlash s ≠ [] := by
  cases s with
  | nil => simp [splitOnSlash]
  | cons c t =>
    by_cases hc : c = '/'
    · simp [splitOnSlash, hc]
    · simp only [splitOnSlash, if_neg hc]
      cases h : splitOnSlash t <;> simp

theorem splitOnSlash_cons_ex (s : List Char) :
    ∃ g gs, splitOnSlash s = g :: gs := by
  cases h : splitOnSlash s with
  | nil => exact absurd h (splitOnSlash_ne_nil s)
  | cons g gs => exact ⟨g, gs, rfl⟩

theorem joinSlash_splitOnSlash (s : List Char) : joinSlash (splitOnSlash s) = s := by
  induction s with
  | nil => rfl
  | cons c t ih =>
    by_cases hc : c = '/'
    · subst hc
      simp only [splitOnSlash, if_pos rfl]
      obtain ⟨g, gs, hg⟩ := splitOnSlash_cons_ex t
      rw [hg]
      show [] ++ '/' :: joinSlash (g :: gs) = '/' :: t
      rw [← hg, ih]
      rfl
    · simp only [splitOnSlash, if_neg hc]
      obtain ⟨g, gs, hg⟩ := splitOnSlash_cons_ex t
      rw [hg]
      rw [hg] at ih
      cases gs with
      | nil =>
        show c :: g = c :: t
        simpa [joinSlash] using ih
      | cons g2 gt =>
        show (c :: g) ++ '/' :: joinSlash (g2 :: gt) = c :: t
        simp only [List.cons_append]
        rw [show g ++ '/' :: joinSlash (g2 :: gt) = joinSlash (g :: g2 :: gt) from rfl, ih]

theorem splitOnSlash_append (a b : List Char) :
    splitOnSlash (a ++ '/' :: b) = splitOnSlash a ++ splitOnSlash b := by
  induction a with
  | nil => simp [splitOnSlash]
  | cons c t ih =>
    by_cases hc : c = '/'
    · subst hc
      rw [List.cons_append]
      rw [show splitOnSlash ('/' :: (t ++ '/' :: b)) = [] :: splitOnSlash (t ++ '/' :: b) from by
        simp [splitOnSlash]]
      rw [show splitOnSlash ('/' :: t) = [] :: splitOnSlash t from by simp [splitOnSlash]]
      rw [ih]
      rfl
    · have hstep : ∀ (u : List Char), splitOnSlash (c :: u) =
          match splitOnSlash u with
          | g :: gs => (c :: g) :: gs
          | [] => [[c]] := by
        intro u
        simp [splitOnSlash, hc]
      obtain ⟨g, gs, hg⟩ := splitOnSlash_cons_ex t
      rw [List.cons_append, hstep (t ++ '/' :: b), hstep t, ih, hg]
      rfl

theorem cleanStep_plain (rooted : Bool) (stack : List (List Char)) (e : List Char)
    (h : e ≠ [] ∧ e ≠ ".".data ∧ e ≠ "..".data) : cleanStep rooted stack e = e :: stack := by
  unfold cleanStep
  rw [if_neg (by simp [h.1, h.2.1]), if_neg h.2.2]

theorem foldl_clean_plain (rooted : Bool) (es : List (List Char)) (acc : List (List Char))
    (h : ∀ e ∈ es, e ≠ [] ∧ e ≠ ".".data ∧ e ≠ "..".data) :
    es.foldl (cleanStep rooted) acc = es.reverse ++ acc := by
  induction es generalizing acc with
  | nil => simp
  | cons e t ih =>
    rw [List.foldl_cons, cleanStep_plain rooted acc e (h e (by simp))]
    rw [ih (e :: acc) (fun x hx => h x (by simp [hx]))]
    simp

theorem cleanPathL_rooted_plain (body : List Char)
    (h : ∀ seg ∈ splitOnSlash body, seg ≠ [] ∧ seg ≠ ".".data ∧ seg ≠ "..".data) :
    cleanPathL ('/' :: body) = '/' :: body := by
  have hbody : body ≠ [] := by
    intro hb
    subst hb
    exact (h [] (by simp [splitOnSlash])).1 rfl
  have hsplit : splitOnSlash ('/' :: body) = [] :: splitOnSlash body := by
    simp [splitOnSlash]
  have hroot : isRootedL ('/' :: body) = true := rfl
  have hb : cleanBody ('/' :: body) = body := by
    unfold cleanBody
    rw [hroot, hsplit, List.foldl_cons]
    rw [show cleanStep true [] [] = [] from rfl]
    rw [foldl_clean_plain true _ [] h]
    simp only [List.append_nil, List.reverse_reverse]
    exact joinSlash_splitOnSlash body
  unfold cleanPathL
  rw [hroot, hb]
  simp [hbody]


/-! ## Claim theorems -/

/-- C1: image text extraction.  For every response text, extraction fails
with the no-image-link error exactly when the text has zero URL-like matches;
otherwise it returns the first match, in order of appearance, whose trimmed
lower-cased form contains one of the known image suffixes, falling back to the
trimmed last match; in particular, for a text whose matches are a non-image
URL and a png URL in either order, the png URL is returned. -/
theorem C1_image_text_extraction (content : List Char) :
    (extractImageURL content = .error noImageLinkErr ↔ urlMatches content = []) ∧
    (∀ m, (urlMatches content).find?
        (fun cand => hasImageSuffix (lowerL (trimCutset cand imageCutset))) = some m →
      extractImageURL content = .ok (trimCutset m imageCutset)) ∧
    (urlMatches content ≠ [] →
      (urlMatches content).find?
        (fun cand => hasImageSuffix (lowerL (trimCutset cand imageCutset))) = none →
      extractImageURL content = .ok (trimCutset ((urlMatches content).getLastD []) imageCutset)) ∧
    (∀ u p, (urlMatches content = [u, p] ∨ urlMatches content = [p, u]) →
      hasImageSuffix (lowerL (trimCutset u imageCutset)) = false →
      containsSub (lowerL (trimCutset p imageCutset)) ".png".data = true →
      extractImageURL content = .ok (trimCutset p imageCutset)) := by
  refine ⟨?_, ?_, ?_, ?_⟩
  · by_cases h : urlMatches content = []
    · simp [extractImageURL, h]
    · cases hf : (urlMatches content).find?
          (fun cand => hasImageSuffix (lowerL (trimCutset cand imageCutset))) with
      | none => simp [extractImageURL, h, hf]
      | some m => simp [extractImageURL, h, hf]
  · intro m hm
    have h : urlMatches content ≠ [] := by
      intro hnil
      rw [hnil] at hm
      simp [List.find?] at hm
    simp [extractImageURL, h, hm]
  · intro h hf
    simp [extractImageURL, h, hf]
  · intro u p hor hu hp
    have hpq : hasImageSuffix (lowerL (trimCutset p imageCutset)) = true := by
      unfold hasImageSuffix
      rw [hp]
      simp
    cases hor with
    | inl h2 =>
      have h : urlMatches content ≠ [] := by rw [h2]; simp
      have hf : (urlMatches content).find?
          (fun cand => hasImageSuffix (lowerL (trimCutset cand imageCutset))) = some p := by
        rw [h2]
        simp [List.find?, hu, hpq]
      simp [extractImageURL, h, hf]
    | inr h2 =>
      have h : urlMatches content ≠ [] := by rw [h2]; simp
      have hf : (urlMatches content).find?
          (fun cand => hasImageSuffix (lowerL (trimCutset cand imageCutset))) = some p := by
        rw [h2]
        simp [List.find?, hpq]
      simp [extractImageURL, h, hf]

/-- Witness for C1 at a concrete text holding a non-image URL before a png
URL. -/
theorem C1_witness :
    extractImageURL c1Text = .ok "https://cdn.example.com/pic.png".data := by
  have h := (C1_image_text_extraction c1Text).2.2.2 "http://example.com/page".data
      "https://cdn.example.com/pic.png".data (Or.inl (by decide)) (by decide) (by decide)
  have ht : trimCutset "https://cdn.example.com/pic.png".data imageCutset
      = "https://cdn.example.com/pic.png".data := by decide
  rw [ht] at h
  exact h

/-- C2 counterexample: a well-formed HTTP 200 response whose content holds no recognizable artifact reference yields a descriptive parse error, yet the retry loop performs all 3 attempts instead of stopping after the first one. -/
theorem C2_counterexample :
    doImageRequestModel c2Resp = .error (parseLinkErr noImageLinkErr) ∧
    (requestImageWithRetry (fun _ => c2Resp)).attempts = 3 ∧
    (requestImageWithRetry (fun _ => c2Resp)).attempts ≠ 1 := by
  refine ⟨rfl, rfl, by decide⟩

/-- C2 (amended): the retry loop is blind to the kind of error; any failed attempt, including a normalization or parse failure, is retried just like a transient provider error, and the number of attempts depends only on which attempt first succeeds. -/
theorem C2_amended_retry_is_error_blind (responses : Nat → ProviderOutcome) :
    (requestImageWithRetry responses).attempts =
      (if exIsOk (doImageRequestModel (responses 1)) then 1
       else if exIsOk (doImageRequestModel (responses 2)) then 2 else 3) := by
  rcases h1 : doImageRequestModel (responses 1) with e1 | v1 <;>
    rcases h2 : doImageRequestModel (responses 2) with e2 | v2 <;>
    rcases h3 : doImageRequestModel (responses 3) with e3 | v3 <;>
    simp [requestImageWithRetry, retryRun_eq, h1, h2, h3, exIsOk]

/-- C3: retry contract.  The loop performs at most 3 attempts, sleeps 2 seconds before attempt 2 and 4 seconds before attempt 3, returns the first success immediately, and after 3 failures returns a combined error that mentions the attempt count 3 and wraps the last underlying error. -/
theorem C3_retry_contract {A : Type} (f : Nat → Except (List Char) A) :
    (retryRun f).attempts ≤ 3 ∧
    (∀ v, f 1 = .ok v → retryRun f = ⟨.ok v, 1, []⟩) ∧
    (∀ e1 v, f 1 = .error e1 → f 2 = .ok v → retryRun f = ⟨.ok v, 2, [2]⟩) ∧
    (∀ e1 e2 v, f 1 = .error e1 → f 2 = .error e2 → f 3 = .ok v →
      retryRun f = ⟨.ok v, 3, [2, 4]⟩) ∧
    (∀ e1 e2 e3, f 1 = .error e1 → f 2 = .error e2 → f 3 = .error e3 →
      retryRun f = ⟨.error (combinedErr e3), 3, [2, 4]⟩ ∧
        containsSub (combinedErr e3) ['3'] = true ∧
        e3.isSuffixOf (combinedErr e3) = true) := by
  refine ⟨?_, ?_, ?_, ?_, ?_⟩
  · rw [retryRun_eq]
    rcases h1 : f 1 with e1 | v1 <;> rcases h2 : f 2 with e2 | v2 <;> rcases h3 : f 3 with e3 | v3 <;>
      simp
  · intro v h1
    rw [retryRun_eq, h1]
  · intro e1 v h1 h2
    rw [retryRun_eq, h1, h2]
  · intro e1 e2 v h1 h2 h3
    rw [retryRun_eq, h1, h2, h3]
  · intro e1 e2 e3 h1 h2 h3
    refine ⟨by rw [retryRun_eq, h1, h2, h3], ?_, ?_⟩
    · have he : combinedErr e3 = "重试 3 次后仍然失败: ".data ++ e3 := rfl
      rw [he]
      exact containsSub_append_left _ _ _ (by decide)
    · have he : combinedErr e3 = "重试 3 次后仍然失败: ".data ++ e3 := rfl
      rw [he]
      exact List.isSuffixOf_iff_suffix.mpr (List.suffix_append _ _)

/-- Witness for C3: an attempt function that fails exactly twice and then succeeds yields the successful result after 3 attempts with waits of 2 and 4 seconds. -/
theorem C3_witness :
    retryRun c3Attempt = ⟨.ok "http://example.com/ok.png".data, 3, [2, 4]⟩ := by
  exact (C3_retry_contract c3Attempt).2.2.2.1 "网络超时".data "网络超时".data
    "http://example.com/ok.png".data rfl rfl rfl

/-- C4 counterexample: when every attempt fails immediately with the context-canceled transport error, the loop still performs 3 attempts and sleeps the backoff delays, contradicting the claim that no further attempts are scheduled after cancellation. -/
theorem C4_counterexample :
    (requestImageWithRetry (fun _ => .transport ctxCanceledMsg)).attempts = 3 ∧
    (requestImageWithRetry (fun _ => .transport ctxCanceledMsg)).waits = [2, 4] ∧
    ¬((requestImageWithRetry (fun _ => .transport ctxCanceledMsg)).attempts = 1 ∧
      (requestImageWithRetry (fun _ => .transport ctxCanceledMsg)).waits = []) := by
  refine ⟨rfl, rfl, by decide⟩

/-- C4 (amended): a cancelled context makes each provider call fail immediately with the context error, but the retry loop still runs all 3 attempts with backoff sleeps of 2 and 4 seconds and returns the combined error wrapping the context error. -/
theorem C4_amended_cancellation_still_retries (e : List Char) :
    requestImageWithRetry (fun _ => .transport e) =
      ⟨.error (combinedErr e), 3, [2, 4]⟩ := by
  simp [requestImageWithRetry, retryRun_eq, doImageRequestModel]

/-- C5: audio extraction search order.  Parsing equals probing the candidate objects in the order output.audio, output itself, each object of output.results, top-level data, each object of top-level results, stopping at the first candidate that yields a payload and failing with the no-audio error when none does; within a candidate an inline payload under the audio or audio_data key is preferred and classified as a URL exactly when it starts with the http or https scheme, and otherwise the audio_url or url key is consulted. -/
theorem C5_audio_search_order (payload : Option (List (List Char × JVal))) :
    (parseDashscopeAudio payload =
      match payload with
      | none => Except.error noAudioErr
      | some p =>
        match firstSomeL extractAudioFromMap (audioCandidates p) with
        | some r => Except.ok r
        | none => Except.error noAudioErr) ∧
    (∀ (m : List (List Char × JVal)) (a : List Char),
      stringFromMap m ["audio".data, "audio_data".data] = some a →
      trimSpaceL a ≠ [] →
      extractAudioFromMap m =
        some (if startsHTTP (trimSpaceL a)
          then ⟨trimSpaceL a, true, inferAudioExtensionFromURL (trimSpaceL a) (audioExtField m)⟩
          else ⟨trimSpaceL a, false, inferAudioExtensionFromData (trimSpaceL a) (audioExtField m)⟩)) ∧
    (∀ m : List (List Char × JVal),
      stringFromMap m ["audio".data, "audio_data".data] = none →
      extractAudioFromMap m = audioURLBranch m (audioExtField m)) := by
  refine ⟨?_, ?_, ?_⟩
  · cases payload with
    | none => rfl
    | some p => exact parse_eq_candidates p
  · intro m a ha hne
    simp only [extractAudioFromMap, ha, if_pos hne]
    by_cases hs : startsHTTP (trimSpaceL a) <;> simp [hs]
  · intro m hm
    simp only [extractAudioFromMap, hm]

/-- Witness for C5: a candidate object with an audio key holding a remote wav URL normalizes to a URL reference with extension wav. -/
theorem C5_witness :
    extractAudioFromMap c5Obj =
      some ⟨"http://example.com/voice.wav".data, true, "wav".data⟩ := by
  have h := (C5_audio_search_order none).2.1 c5Obj "http://example.com/voice.wav".data rfl
    (by decide)
  rw [h]
  decide

/-- C6: inline payload round trip.  For every byte sequence and every plain lower-case mime name, the data-audio payload built from the base64 encoding of the bytes, possibly containing interior newlines, normalizes to an inline non-URL reference carrying the mime name as its extension, and materializing it writes exactly the original bytes; any payload whose base64 part fails to decode yields the decoding error. -/
theorem C6_inline_round_trip (bs : List Nat) (m e : List Char)
    (hb : ∀ x ∈ bs, x < 256)
    (hm1 : m ≠ []) (hm2 : lowerL m = m)
    (hm3 : ∀ c ∈ m, (c == ';') = false ∧ (c == ',') = false ∧ isSpaceGo c = false)
    (he : removeCRLF e = b64encode bs)
    (hw : ∀ c ∈ e, isSpaceGo c = true → isCRLF c = true) :
    extractAudioFromMap [("audio".data, JVal.jstr (inlinePayload m e))] =
      some ⟨trimSpaceL (inlinePayload m e), false, m⟩ ∧
    saveBase64ToFile (trimSpaceL (inlinePayload m e)) = .ok bs ∧
    (∀ s, b64decode (stripEncodedPayload s) = none →
      saveBase64ToFile s = .error decodeFailMsg) := by
  refine ⟨?_, ?_, ?_⟩
  · rw [C6_extract m e, C6_infer m e hm1 hm2 hm3]
  · unfold saveBase64ToFile
    rw [C6_strip m e hm3, removeCRLF_trimRightWs e hw, he, b64_round_trip bs hb]
  · intro s hs
    unfold saveBase64ToFile
    rw [hs]

/-- Witness for C6 at the payload of the specification example: mime wav and
base64 text SGVsbG8=, which decodes to the bytes of Hello. -/
theorem C6_witness :
    extractAudioFromMap [("audio".data, JVal.jstr (inlinePayload "wav".data "SGVsbG8=".data))] =
      some ⟨"data:audio/wav;base64,SGVsbG8=".data, false, "wav".data⟩ ∧
    saveBase64ToFile "data:audio/wav;base64,SGVsbG8=".data = .ok [72, 101, 108, 108, 111] ∧
    "Hello".data.map Char.toNat = [72, 101, 108, 108, 111] := by
  have h := C6_inline_round_trip [72, 101, 108, 108, 111] "wav".data "SGVsbG8=".data
    (by decide) (by decide) (by decide) (by decide) (by decide) (by decide)
  have ht : trimSpaceL (inlinePayload "wav".data "SGVsbG8=".data) =
      "data:audio/wav;base64,SGVsbG8=".data := by decide
  obtain ⟨h1, h2, _⟩ := h
  rw [ht] at h1
  rw [ht] at h2
  exact ⟨h1, h2, by decide⟩

/-- C7: publish is best-effort and non-blocking.  Publishing delivers the event to each channel registered under the task id whose buffer is below the capacity of 10, silently drops it for each full channel, leaves the number of registered channels and the channels of other task ids unchanged, and the new state of each channel depends only on its own buffer, so a full buffer on one subscriber never prevents delivery to the others.  In this functional model publish is a total function, reflecting that the select with default never blocks. -/
theorem C7_publish_best_effort (pt : progressTracker) (u : ProgressUpdate) :
    (∀ (i : Nat) (buf : List ProgressUpdate), (pt.channels u.taskId)[i]? = some buf →
      ((pt.publish u).channels u.taskId)[i]? =
        some (if buf.length < chanCap then buf ++ [u] else buf)) ∧
    ((pt.publish u).channels u.taskId).length = (pt.channels u.taskId).length ∧
    (∀ t, t ≠ u.taskId → (pt.publish u).channels t = pt.channels t) := by
  refine ⟨?_, ?_, ?_⟩
  · intro i buf hbuf
    simp [progressTracker.publish, sendNB, hbuf]
  · simp [progressTracker.publish]
  · intro t ht
    simp [progressTracker.publish, ht]

/-- Witness for C7: with one full channel and one empty channel registered under the same task id, publishing drops the event on the full channel and delivers it to the empty one. -/
theorem C7_witness :
    ((c7Hub.publish c7Event).channels "task-1".data)[0]? = some c7Full ∧
    ((c7Hub.publish c7Event).channels "task-1".data)[1]? = some [c7Event] := by
  have h1 := (C7_publish_best_effort c7Hub c7Event).1 0 c7Full rfl
  have h2 := (C7_publish_best_effort c7Hub c7Event).1 1 [] rfl
  constructor
  · rw [show ("task-1".data : List Char) = c7Event.taskId from rfl] at *
    rw [h1]
    decide
  · rw [show ("task-1".data : List Char) = c7Event.taskId from rfl] at *
    rw [h2]
    decide

/-- C8 counterexample: a relative URL carrying the expected route prefix but containing dot-dot segments resolves to a deletion target outside the generated-content root. -/
theorem C8_counterexample :
    removeGeneratedFile "/generated/audio/../../secret.txt".data audioRoute
      "/srv/taco/generated/audio".data = some "/srv/taco/secret.txt".data ∧
    "/srv/taco/generated/audio".data.isPrefixOf "/srv/taco/secret.txt".data = false := by
  exact ⟨by decide, by decide⟩

/-- C8 (amended): a file is deleted only when the relative URL carries the route prefix and a nonempty remainder, the deleted path is the remainder joined under the content root, that path stays below the root whenever the root and the remainder consist of plain path segments, and the outcome of the deletion never influences the result of the ongoing generation call. -/
theorem C8_amended_guarded_removal (relPath routePre dir : List Char) :
    (routePre.isPrefixOf relPath = false → removeGeneratedFile relPath routePre dir = none) ∧
    (∀ target, removeGeneratedFile relPath routePre dir = some target →
      routePre.isPrefixOf relPath = true ∧ relPath.drop routePre.length ≠ [] ∧
      target = joinPathL dir (relPath.drop routePre.length)) ∧
    (∀ dbody, dir = '/' :: dbody →
      (∀ seg ∈ splitOnSlash dbody, seg ≠ [] ∧ seg ≠ ".".data ∧ seg ≠ "..".data) →
      (∀ seg ∈ splitOnSlash (relPath.drop routePre.length),
        seg ≠ [] ∧ seg ≠ ".".data ∧ seg ≠ "..".data) →
      routePre.isPrefixOf relPath = true → relPath.drop routePre.length ≠ [] →
      removeGeneratedFile relPath routePre dir =
        some (dir ++ '/' :: relPath.drop routePre.length) ∧
      dir.isPrefixOf (dir ++ '/' :: relPath.drop routePre.length) = true) ∧
    (∀ (audioDir audioPath : List Char) (res : AudioResult) (idx ts : Nat)
      (os1 os2 : List Char → RemoveOutcome) (fetch : Except (List Char) Unit),
      generateSceneAudioTail audioDir audioPath res idx ts os1 fetch =
        generateSceneAudioTail audioDir audioPath res idx ts os2 fetch) := by
  refine ⟨?_, ?_, ?_, ?_⟩
  · intro hp
    unfold removeGeneratedFile
    rw [if_neg (by simp [hp])]
  · intro target ht
    unfold removeGeneratedFile at ht
    by_cases hp : routePre.isPrefixOf relPath
    · rw [if_pos hp] at ht
      by_cases hf : relPath.drop routePre.length = []
      · rw [if_pos hf] at ht
        cases ht
      · rw [if_neg hf] at ht
        simp at ht
        exact ⟨hp, hf, ht.symm⟩
    · rw [if_neg hp] at ht
      cases ht
  · intro dbody hdir hplain1 hplain2 hp hf
    subst hdir
    constructor
    · unfold removeGeneratedFile
      rw [if_pos hp, if_neg hf]
      congr 1
      unfold joinPathL
      rw [if_neg (by simp), if_neg (by simp), if_neg hf]
      rw [show (('/' :: dbody) ++ '/' :: relPath.drop routePre.length) =
          '/' :: (dbody ++ '/' :: relPath.drop routePre.length) from rfl]
      rw [cleanPathL_rooted_plain _ (by
        rw [splitOnSlash_append]
        intro seg hseg
        rcases List.mem_append.mp hseg with hs | hs
        · exact hplain1 seg hs
        · exact hplain2 seg hs)]
    · exact isPrefixOf_append_self ('/' :: dbody) ('/' :: relPath.drop routePre.length)
  · intro audioDir audioPath res idx ts os1 os2 fetch
    rfl

/-- Witness for C8 at a plain file name under the audio route: the target is the file resolved under the root and stays below it. -/
theorem C8_witness :
    removeGeneratedFile c8Rel audioRoute c8Dir =
      some "/srv/taco/generated/audio/scene_01_99.mp3".data ∧
    c8Dir.isPrefixOf "/srv/taco/generated/audio/scene_01_99.mp3".data = true := by
  have h := (C8_amended_guarded_removal c8Rel audioRoute c8Dir).2.2.1
    "srv/taco/generated/audio".data rfl (by decide) (by decide) (by decide) (by decide)
  obtain ⟨h1, h2⟩ := h
  refine ⟨?_, ?_⟩
  · rw [h1]
    decide
  · have hcast : (c8Dir ++ '/' :: c8Rel.drop audioRoute.length) =
        "/srv/taco/generated/audio/scene_01_99.mp3".data := by decide
    rw [hcast] at h2
    exact h2

/-- C9 counterexample: a provider response whose format field is upper-case produces an artifact reference whose extension is not lower-case. -/
theorem C9_counterexample :
    parseDashscopeAudio (some c9Payload) =
      Except.ok ⟨"http://x/files/clip".data, true, "MP3".data⟩ ∧
    lowerL "MP3".data ≠ "MP3".data := ⟨rfl, by decide⟩

/-- C9 (amended): every artifact reference produced by extractAudioFromMap has a lower-case extension without a leading dot, provided the explicit format field, after the single leading-dot strip the code applies, is already in that normal form, and any data-URL mime of an inline payload carries no leading dot. -/
theorem C9_amended_extension_normal_form (m : List (List Char × JVal)) (r : AudioResult)
    (h : extractAudioFromMap m = some r)
    (hf : lowerL (audioExtField m) = audioExtField m ∧ (audioExtField m).head? ≠ some '.')
    (hmime : ∀ mime, parseAudioDataURL (lowerL (trimSpaceL r.source)) = some mime →
      lowerL mime = mime ∧ mime.head? ≠ some '.') :
    lowerL r.extension = r.extension ∧ r.extension.head? ≠ some '.' := by
  obtain ⟨hf1, hf2⟩ := hf
  unfold extractAudioFromMap at h
  cases ha : stringFromMap m ["audio".data, "audio_data".data] with
  | some a =>
    rw [ha] at h
    by_cases hne : trimSpaceL a = []
    · simp only [ne_eq, hne, not_true_eq_false, if_neg] at h
      exact urlBranch_good m r h hf1 hf2
    · simp only [ne_eq, hne, not_false_eq_true, if_pos] at h
      by_cases hs : startsHTTP (trimSpaceL a)
      · rw [if_pos hs] at h
        rw [Option.some.injEq] at h
        subst h
        exact inferURL_good _ _ hf1 hf2
      · rw [if_neg hs] at h
        rw [Option.some.injEq] at h
        subst h
        exact inferData_good _ _ hf1 hf2 hmime
  | none =>
    rw [ha] at h
    exact urlBranch_good m r h hf1 hf2

/-- Witness for C9 at a candidate with a lower-case wav format field and a remote URL. -/
theorem C9_witness :
    extractAudioFromMap c9GoodObj =
      some ⟨"http://example.com/a".data, true, "wav".data⟩ ∧
    lowerL "wav".data = "wav".data ∧ ("wav".data : List Char).head? ≠ some '.' := by
  have hmime : ∀ mime, parseAudioDataURL (lowerL (trimSpaceL
      (AudioResult.mk "http://example.com/a".data true "wav".data).source)) = some mime →
      lowerL mime = mime ∧ mime.head? ≠ some '.' := by
    intro mime hm
    have h0 : parseAudioDataURL (lowerL (trimSpaceL
        (AudioResult.mk "http://example.com/a".data true "wav".data).source)) = none := by
      decide
    rw [h0] at hm
    cases hm
  have hr := C9_amended_extension_normal_form c9GoodObj
    ⟨"http://example.com/a".data, true, "wav".data⟩ (by decide) ⟨by decide, by decide⟩ hmime
  exact ⟨by decide, hr.1, hr.2⟩

/-- C10: the image-model configuration error is unreachable, because an empty or whitespace model is replaced by the gpt-4o-image default before validation; an image base URL empty in both the image and LLM configurations produces the base-URL error, and an empty API key with a usable base URL produces the API-key error. -/
theorem C10_model_branch_unreachable (cfg : Config) :
    validateImageCfg cfg ≠ .error modelErr ∧
    (trimSpaceL cfg.image.baseURL = [] → trimSpaceL cfg.llm.baseURL = [] →
      validateImageCfg cfg = .error baseURLErr) ∧
    (trimSpaceL (resolveImageCfg cfg).baseURL ≠ [] →
      trimSpaceL cfg.image.apiKey = [] → trimSpaceL cfg.llm.apiKey = [] →
      validateImageCfg cfg = .error apiKeyErr) := by
  have hmodel : trimSpaceL (resolveImageCfg cfg).model ≠ [] := by
    by_cases hm : trimSpaceL cfg.image.model = []
    · simp [resolveImageCfg, hm]
      decide
    · simp [resolveImageCfg, hm]
  refine ⟨?_, ?_, ?_⟩
  · simp only [validateImageCfg, if_neg hmodel]
    split_ifs with h1 h2 h3
    · simp only [ne_eq, Except.error.injEq]
      decide
    · simp only [ne_eq, Except.error.injEq]
      decide
    · simp only [ne_eq, Except.error.injEq]
      decide
    · simp
  · intro hb hllm
    have hbase : trimSpaceL (resolveImageCfg cfg).baseURL = [] := by
      simp [resolveImageCfg, hb, hllm]
    simp only [validateImageCfg, if_neg hmodel, if_pos hbase]
  · intro hbne hk hkl
    have hkey : trimSpaceL (resolveImageCfg cfg).apiKey = [] := by
      simp [resolveImageCfg, hk, hkl]
    simp only [validateImageCfg, if_neg hmodel, if_neg hbne, if_pos hkey]

/-- Witness for C10: a configuration empty everywhere fails with the base-URL error, not the model error. -/
theorem C10_witness :
    validateImageCfg c10Cfg = .error baseURLErr ∧ baseURLErr ≠ modelErr := by
  exact ⟨(C10_model_branch_unreachable c10Cfg).2.1 rfl rfl, by decide⟩

